import Mathlib

/-
Verification of the Heka pipeline core against its specification.

The definitions below are shallow embeddings of the Go (and sandbox
adapter) sources:
  * `foInject`, `foRetainPack`, `foInChan`, `foStarter`  — pipeline/plugin_runners.go (foRunner)
  * `iStarter`                                           — pipeline/plugin_runners.go (iRunner)
  * `dRunnerStep`, `dRunnerLoop`                         — pipeline/plugin_runners.go (dRunner.Start)
  * `injectCb`, `runInjections`, `sandboxDecode`         — SandboxDecoder (sandbox adapter)
  * `smtpRunStep`, `smtpRun`                             — plugins/smtp/smtp_output.go
  * `handleMessage`, `fileReceiverStep`, `fileReceiverLoop` — plugins/file/file_output.go

Channels become lists, goroutine side effects become explicit event
traces in source order, and machine state is passed explicitly.
-/

namespace Heka

/-! ## Filter/output runner: Inject (foRunner.Inject) -/

/-- Side effects of a filter runner injecting a pack, in source order. -/
inductive FoEvent (α : Type) where
  | recycled (p : α)
  | errorLogged
  | routed (p : α)
  deriving DecidableEq

/-- Shallow embedding of `foRunner.Inject`: `spec` is the runner's own
message-matcher predicate applied to the pack's message.  On a match the
pack is recycled, an error is logged and `false` is returned; otherwise
the pack is handed to the router (in Go via a spawned goroutine) and
`true` is returned. -/
def foInject {α : Type} (spec : α → Bool) (p : α) : Bool × List (FoEvent α) :=
  if spec p then
    (false, [FoEvent.recycled p, FoEvent.errorLogged])
  else
    (true, [FoEvent.routed p])

/-! ## Filter/output runner: RetainPack / InChan -/

/-- The retention-relevant state of a `foRunner`: the retained slot and
the contents of the real inbound channel. -/
structure FoChanState (α : Type) where
  retainPack : Option α
  queue : List α
  deriving DecidableEq

/-- What a call to `foRunner.InChan` hands back: either the fresh
single-shot channel (with the values it yields before being closed) or
the runner's real inbound queue. -/
inductive ChanRead (α : Type) where
  | retainChan (yielded : List α) (closedAfter : Bool)
  | realChan (q : List α)
  deriving DecidableEq

/-- Shallow embedding of `foRunner.RetainPack`. -/
def foRetainPack {α : Type} (s : FoChanState α) (p : α) : FoChanState α :=
  { s with retainPack := some p }

/-- Shallow embedding of `foRunner.InChan`.  With a retained pack it
allocates a single-shot channel that yields the pack and is then closed,
clearing the retained slot (in Go the clear happens in the goroutine
right after the send); otherwise it returns the real inbound queue. -/
def foInChan {α : Type} (s : FoChanState α) : ChanRead α × FoChanState α :=
  match s.retainPack with
  | some p => (ChanRead.retainChan [p] true, { s with retainPack := none })
  | none => (ChanRead.realChan s.queue, s)

/-! ## Decoder runner drain loop (dRunner.Start) -/

/-- Side effects of the decoder runner's per-pack handling. -/
inductive DEvent (α : Type) where
  | routed (p : α)
  | recycled (p : α)
  | logged
  deriving DecidableEq

/-- One iteration of the `dRunner.Start` drain loop body: `res` is what
`Decoder.Decode(pack)` returned, a Go slice (`none` = nil slice) and a
Go error (`none` = nil error). -/
def dRunnerStep {α : Type} (res : Option (List α) × Option String) (pack : α) :
    List (DEvent α) :=
  match res with
  | (some ps, _) => ps.map DEvent.routed
  | (none, some _) => [DEvent.logged, DEvent.recycled pack]
  | (none, none) => [DEvent.recycled pack]

/-- The full drain loop over the inbound channel contents. -/
def dRunnerLoop {α : Type} (decode : α → Option (List α) × Option String) :
    List α → List (DEvent α)
  | [] => []
  | p :: rest => dRunnerStep (decode p) p ++ dRunnerLoop decode rest

/-- Recognizer for recycle events of the decoder runner. -/
def isRecycleEv {α : Type} : DEvent α → Bool
  | DEvent.recycled _ => true
  | _ => false

/-! ## Supervisor loops (iRunner.Starter / foRunner.Starter)

The retry helper itself (`retryhelper.go`) is not part of the sources,
so it is modelled from the spec; the starter loops are translated from
`plugin_runners.go`. -/

/-- Modelled from the spec: the `RetryHelper` state missing from the
sources (`NewRetryHelper`, `Wait`, `Reset`).  `Wait` performs a bounded
backoff sleep and fails once the bound is exhausted; per the spec's
scenario "max_retries=1: the runner invokes Init twice, both fail, and
sets the shutdown flag", `Wait` succeeds while `times <= retries` and
fails when `times` exceeds `retries`, and `Reset` clears the counter. -/
structure RetryHelper where
  retries : Nat
  times : Nat
  deriving DecidableEq

/-- Modelled from the spec: `RetryHelper.Reset` clears the retry counter. -/
def rhReset (rh : RetryHelper) : RetryHelper := { rh with times := 0 }

/-- The only plugin capability the supervisor dispatches on is the
`Restarting` marker. -/
structure PluginM where
  restartable : Bool
  deriving DecidableEq

/-- Observable actions of a supervisor loop, in source order. -/
inductive Event where
  | runInvoked
  | errorLogged
  | messageLogged
  | cleanupForRestart
  | shutdownSet
  | waited
  | createAttempt
  | pluginReplaced
  deriving DecidableEq

/-- Result of the plugin re-creation loop. -/
inductive CreateOutcome where
  | exhausted
  | created (p : PluginM) (rh : RetryHelper) (next : Nat)
  deriving DecidableEq

/-- The `createLoop` of `iRunner.Starter` / `foRunner.Starter`: wait on
the retry helper (shutting down when retries are exhausted), then try
`pw.CreateWithError()`; a creation failure is logged and loops, success
installs the new plugin and resets the helper.  `create` is the oracle
for the wrapper's successive creation attempts, `n` the index of the
next attempt. -/
def createLoop (create : Nat → Option PluginM) (n : Nat) (rh : RetryHelper) :
    List Event × CreateOutcome :=
  if _hstop : rh.retries < rh.times then
    ([Event.errorLogged, Event.shutdownSet], CreateOutcome.exhausted)
  else
    let rh' : RetryHelper := { retries := rh.retries, times := rh.times + 1 }
    match create n with
    | none =>
      let r := createLoop create (n + 1) rh'
      (Event.waited :: Event.createAttempt :: Event.errorLogged :: r.1, r.2)
    | some p =>
      ([Event.waited, Event.createAttempt, Event.pluginReplaced],
       CreateOutcome.created p (rhReset rh') (n + 1))
termination_by rh.retries + 1 - rh.times
decreasing_by simp_wf; omega

/-- One `Run` invocation as seen by the supervisor: whether it returned
a non-nil error, and whether the global stop flag got raised while it
was running. -/
structure RunOutcome where
  isErr : Bool
  stopDuring : Bool
  deriving DecidableEq

/-- The log line emitted right after `Run` returns. -/
def runLogEvent (r : RunOutcome) : Event :=
  if r.isErr then Event.errorLogged else Event.messageLogged

/-- Shallow embedding of `foRunner.Starter`: run the plugin, log, bail
out if stopping, look up the wrapper (returning silently when absent),
dispatch on the `Restarting` marker (non-restartable plugins broadcast
shutdown), and otherwise clean up and enter the re-creation loop.
Returns the event trace and the final value of `globals.Stopping`. -/
def foStarter (wrapperPresent : Bool) (create : Nat → Option PluginM) :
    List RunOutcome → Nat → Bool → PluginM → RetryHelper → List Event × Bool
  | [], _, stopping, _, _ => ([], stopping)
  | r :: rest, n, stopping, p, rh =>
    if stopping then ([], stopping)
    else
      let evs0 : List Event := [Event.runInvoked, runLogEvent r]
      let stopAfterRun := stopping || r.stopDuring
      if stopAfterRun then (evs0, stopAfterRun)
      else if !wrapperPresent then (evs0, stopAfterRun)
      else if !p.restartable then
        (evs0 ++ [Event.messageLogged, Event.shutdownSet], true)
      else
        let evs1 := evs0 ++ [Event.cleanupForRestart]
        match createLoop create n rh with
        | (cevs, CreateOutcome.exhausted) => (evs1 ++ cevs, true)
        | (cevs, CreateOutcome.created p' rh' n') =>
          let res := foStarter wrapperPresent create rest n' stopAfterRun p' rh'
          (evs1 ++ cevs ++ Event.messageLogged :: res.1, res.2)

/-- Shallow embedding of `iRunner.Starter`: identical supervision except
that the wrapper lookup has no nil check and the `Restarting` dispatch
happens before the wrapper lookup. -/
def iStarter (create : Nat → Option PluginM) :
    List RunOutcome → Nat → Bool → PluginM → RetryHelper → List Event × Bool
  | [], _, stopping, _, _ => ([], stopping)
  | r :: rest, n, stopping, p, rh =>
    if stopping then ([], stopping)
    else
      let evs0 : List Event := [Event.runInvoked, runLogEvent r]
      let stopAfterRun := stopping || r.stopDuring
      if stopAfterRun then (evs0, stopAfterRun)
      else if !p.restartable then
        (evs0 ++ [Event.messageLogged, Event.shutdownSet], true)
      else
        let evs1 := evs0 ++ [Event.cleanupForRestart]
        match createLoop create n rh with
        | (cevs, CreateOutcome.exhausted) => (evs1 ++ cevs, true)
        | (cevs, CreateOutcome.created p' rh' n') =>
          let res := iStarter create rest n' stopAfterRun p' rh'
          (evs1 ++ cevs ++ Event.messageLogged :: res.1, res.2)

/-! ## Sandbox adapter: inject callback and Decode (SandboxDecoder) -/

/-- The seven standard message headers handled by the adapter. -/
inductive Header where
  | uuid
  | timestamp
  | htype
  | hostname
  | logger
  | severity
  | pid
  deriving DecidableEq

/-- A Heka message, reduced to what the sandbox adapter touches: the
standard headers (header values abstracted to naturals, `none` = unset
pointer), the payload, and the ordered field list. -/
structure Message where
  hdr : Header → Option Nat
  payload : Option String
  fields : List (String × String)

/-- A freshly acquired pack's message (`dr.NewPack()` yields a zeroed
pack). -/
def emptyMessage : Message :=
  { hdr := fun _ => none, payload := none, fields := [] }

/-- The header fill-in block of the inject callback: any standard header
left unset on the outgoing message is set from `o` via the Go getters.
`SetUuid(original.GetUuid())` keeps `nil` for an unset original UUID,
while the scalar setters store the getter's zero default. -/
def fillFrom (m : Message) (o : Header → Option Nat) : Message :=
  { m with hdr := fun h =>
      match m.hdr h with
      | some v => some v
      | none =>
        match h with
        | Header.uuid => o Header.uuid
        | _ => some ((o h).getD 0) }

/-- The payload-path mutation of the inject callback: set the payload
and append the two synthesized fields. -/
def addPayloadFields (m : Message) (p pt pn : String) : Message :=
  { m with
    payload := some p
    fields := m.fields ++ [("payload_type", pt), ("payload_name", pn)] }

/-- One call of the script's inject callback: `binary d` is the
empty-`payload_type` path (`d` = result of `proto.Unmarshal`, `none`
meaning the unmarshal failed), `payloadInj` the non-empty path. -/
inductive Inj where
  | binary (decoded : Option Message)
  | payloadInj (payload : String) (ptype pname : String)

/-- Did this injection succeed (binary injections fail when the
unmarshal fails)? -/
def injOk : Inj → Bool
  | Inj.binary none => false
  | _ => true

/-- Recognizer for the binary-decode path. -/
def isBinaryInj : Inj → Bool
  | Inj.binary _ => true
  | _ => false

/-- The adapter state threaded through the callback: `pack` is
`s.pack`, `original` the closure variable holding the captured input
headers, `packs` the accumulated batch `s.packs`. -/
structure DecState where
  pack : Option Message
  original : Option Message
  packs : List Message

/-- Shallow embedding of the callback registered by
`SandboxDecoder.SetDecoderRunner` via `s.sb.InjectMessage`.  Returns the
callback's integer result and the new adapter state. -/
def injectCb (s : DecState) (inj : Inj) : Int × DecState :=
  let pkOrig : Message × Option Message :=
    match s.pack with
    | none =>
      (emptyMessage,
       match s.original, s.packs with
       | none, q :: _ => some q
       | o, _ => o)
    | some pk => (pk, none)
  let pk := pkOrig.1
  let original := pkOrig.2
  match inj with
  | Inj.binary d =>
    let original :=
      match original with
      | none => some { hdr := pk.hdr, payload := none, fields := [] }
      | some o => some o
    match d with
    | none => (1, { pack := some pk, original := original, packs := s.packs })
    | some dm =>
      let m :=
        match original with
        | some o => fillFrom dm o.hdr
        | none => dm
      (0, { pack := none, original := original, packs := s.packs ++ [m] })
  | Inj.payloadInj p pt pn =>
    let mp := addPayloadFields pk p pt pn
    let m :=
      match original with
      | some o => fillFrom mp o.hdr
      | none => mp
    (0, { pack := none, original := original, packs := s.packs ++ [m] })

/-- Folding a whole sequence of callback invocations over the state. -/
def runInjections (s : DecState) : List Inj → DecState
  | [] => s
  | i :: is => runInjections (injectCb s i).2 is

/-- Adapter state at the start of `ProcessMessage` inside `Decode`:
`s.pack` holds the input pack, `s.packs` was cleared by the previous
`Decode`, and the closure variable `original` may hold leftovers. -/
def decodeStart (m0 : Message) (orig : Option Message) : DecState :=
  { pack := some m0, original := orig, packs := [] }

/-- What `SandboxDecoder.Decode` does after `ProcessMessage` returns:
the recycled packs, whether the global shutdown flag was raised and the
error logged, the returned pack slice (`none` = nil slice), the
returned error, and the adapter batch after the call. -/
structure SboxDecodeRes (α : Type) where
  recycled : List α
  shutdownSet : Bool
  errLogged : Bool
  outPacks : Option (List α)
  outErr : Option String
  packsAfter : Option (List α)
  deriving DecidableEq

/-- Shallow embedding of the tail of `SandboxDecoder.Decode`: `prevErr`
is the (sticky) `s.err` field, `retval` the `ProcessMessage` result,
`sPacks` the accumulated `s.packs` slice. -/
def sandboxDecode {α : Type} (prevErr : Option String) (retval : Int)
    (sPacks : Option (List α)) : SboxDecodeRes α :=
  let fatal : Bool := decide (0 < retval)
  let err1 : Option String := if fatal then some "FATAL: sandbox error" else prevErr
  if retval < 0 then
    { recycled :=
        match sPacks with
        | some (_ :: rest) => rest
        | _ => []
      shutdownSet := fatal
      errLogged := fatal
      outPacks := none
      outErr := some "Failed parsing"
      packsAfter := none }
  else
    { recycled := []
      shutdownSet := fatal
      errLogged := fatal
      outPacks := sPacks
      outErr := err1
      packsAfter := none }

/-! ## SMTP output (SmtpOutput.Run) -/

/-- Side effects of an output plugin's run loop. -/
inductive OutEvent (α : Type) where
  | sent
  | logged
  | recycled (p : α)
  deriving DecidableEq

/-- One iteration of `SmtpOutput.Run` for the pack `p`: `marshalRes` is
the `json.Marshal` result (consulted only when not payload-only),
`sendErr` the result of the send function.  The marshal-failure branch
assigns the outer `err`, so the trailing `if err != nil` logs it a
second time; every path ends with `pack.Recycle()`. -/
def smtpRunStep {α : Type} (payloadOnly : Bool) (marshalRes : Except String String)
    (sendErr : Option String) (p : α) : List (OutEvent α) :=
  let sendPart : List (OutEvent α) × Option String :=
    if payloadOnly then
      ([OutEvent.sent], sendErr)
    else
      match marshalRes with
      | Except.ok _ => ([OutEvent.sent], sendErr)
      | Except.error e => ([OutEvent.logged], some e)
  (sendPart.1 ++
    (match sendPart.2 with
     | some _ => [OutEvent.logged]
     | none => [])) ++ [OutEvent.recycled p]

/-- The whole `SmtpOutput.Run` drain loop; `oracle` supplies each pack's
marshal and send results. -/
def smtpRun {α : Type} (payloadOnly : Bool)
    (oracle : α → Except String String × Option String) :
    List α → List (OutEvent α)
  | [] => []
  | p :: rest =>
    smtpRunStep payloadOnly (oracle p).1 (oracle p).2 p ++ smtpRun payloadOnly oracle rest

/-! ## File output (FileOutput.handleMessage / receiver) -/

/-- The validated serialization formats of `FileOutput`. -/
inductive FileFormat where
  | json
  | text
  | protobufstream
  deriving DecidableEq

/-- Result of `FileOutput.handleMessage`: the chunks appended to the
output buffer and the returned (named) error. -/
structure HandleResult where
  out : List String
  err : Option String
  deriving DecidableEq

/-- The newline terminator appended after json and text records. -/
def NEWLINE : String := "\n"

/-- Shallow embedding of `FileOutput.handleMessage`.  `withTs` is the
`prefix_ts` option, `jsonRes` the `json.Marshal` result, `payload` the
message payload, `protoRes` the `ProtobufEncodeMessage` result.  In the
json branch the Go code declares a fresh `err` in the if-initializer,
shadowing the named return, so a marshal failure never reaches the
caller: the wrapped error is assigned to the shadow and dropped. -/
def handleMessage (withTs : Bool) (format : FileFormat) (ts : String)
    (jsonRes : Except String String) (payload : String)
    (protoRes : Except String String) : HandleResult :=
  let out0 : List String := if withTs ∧ format ≠ FileFormat.protobufstream then [ts] else []
  match format with
  | FileFormat.json =>
    match jsonRes with
    | Except.ok j => { out := out0 ++ [j, NEWLINE], err := none }
    | Except.error e =>
      let _shadowed : String := "Cannot encode to JSON: " ++ e
      { out := out0, err := none }
  | FileFormat.text => { out := out0 ++ [payload, NEWLINE], err := none }
  | FileFormat.protobufstream =>
    match protoRes with
    | Except.ok b => { out := out0 ++ [b], err := none }
    | Except.error e => { out := out0, err := some ("Cannot encode to ProtoBuf: " ++ e) }

/-- The pack branch of `FileOutput.receiver`: log the `handleMessage`
error if any (the batch is extended on success), then recycle the pack. -/
def fileReceiverStep {α : Type} (res : HandleResult) (p : α) : List (OutEvent α) :=
  (match res.err with
   | some _ => [OutEvent.logged]
   | none => []) ++ [OutEvent.recycled p]

/-- The receiver loop over the inbound channel contents; `handle` gives
each pack's `handleMessage` result. -/
def fileReceiverLoop {α : Type} (handle : α → HandleResult) :
    List α → List (OutEvent α)
  | [] => []
  | p :: rest => fileReceiverStep (handle p) p ++ fileReceiverLoop handle rest

/-! ## Expected per-injection output of the sandbox callback -/

/-- The message appended by the first callback invocation of a
`ProcessMessage` (the outgoing pack is the original input pack `m0`). -/
def injOutFirst (m0 : Message) : Inj → Message
  | Inj.binary (some dm) => fillFrom dm m0.hdr
  | Inj.binary none => emptyMessage
  | Inj.payloadInj p pt pn => addPayloadFields m0 p pt pn

/-- The message appended by any later callback invocation (the outgoing
pack is a fresh pack; unset headers are filled from the input's). -/
def injOutLater (m0 : Message) : Inj → Message
  | Inj.binary (some dm) => fillFrom dm m0.hdr
  | Inj.binary none => emptyMessage
  | Inj.payloadInj p pt pn => fillFrom (addPayloadFields emptyMessage p pt pn) m0.hdr

/-- The standard headers the script itself set on the outgoing message
of an injection, before the adapter's fill-in block runs: the decoded
message's headers on the binary path, the input pack's own headers for
the first payload-path injection, nothing for later payload-path
injections (their pack is fresh). -/
def scriptHdr (m0 : Message) (isFirst : Bool) : Inj → Header → Option Nat
  | Inj.binary (some dm) => dm.hdr
  | Inj.binary none => fun _ => none
  | Inj.payloadInj _ _ _ => if isFirst then m0.hdr else fun _ => none

/-- Default injection used with `List.getD`. -/
def defInj : Inj := Inj.payloadInj "" "" ""

/-- Invariant of the adapter state after at least one successful
injection: no pack under construction, and the header source for later
fill-ins (the `original` capture, or the first accumulated pack when
nothing was captured) carries exactly the input message's headers. -/
def InvD (m0 : Message) (s : DecState) : Prop :=
  s.pack = none ∧
  ((∃ o, s.original = some o ∧ o.hdr = m0.hdr) ∨
   (s.original = none ∧ ∃ q, s.packs.head? = some q ∧ q.hdr = m0.hdr))

/-! ## Helper lemmas about the re-creation loop -/

theorem createLoop_stopCase (create : Nat → Option PluginM) (n : Nat) (rh : RetryHelper)
    (h : rh.retries < rh.times) :
    createLoop create n rh =
      ([Event.errorLogged, Event.shutdownSet], CreateOutcome.exhausted) := by
  rw [createLoop]
  simp [h]

theorem createLoop_goCase (create : Nat → Option PluginM) (n : Nat) (rh : RetryHelper)
    (h : ¬ rh.retries < rh.times) :
    createLoop create n rh =
      match create n with
      | none =>
        let r := createLoop create (n + 1) ⟨rh.retries, rh.times + 1⟩
        (Event.waited :: Event.createAttempt :: Event.errorLogged :: r.1, r.2)
      | some p =>
        ([Event.waited, Event.createAttempt, Event.pluginReplaced],
         CreateOutcome.created p (rhReset ⟨rh.retries, rh.times + 1⟩) (n + 1)) := by
  rw [createLoop]
  simp [h]

theorem createLoop_allFail (create : Nat → Option PluginM) (hf : ∀ k, create k = none) :
    ∀ (fuel n : Nat) (rh : RetryHelper), rh.retries + 1 - rh.times = fuel →
      (createLoop create n rh).1.count Event.createAttempt = fuel ∧
      (createLoop create n rh).2 = CreateOutcome.exhausted ∧
      Event.shutdownSet ∈ (createLoop create n rh).1 := by
  intro fuel
  induction fuel with
  | zero =>
    intro n rh hfu
    have h : rh.retries < rh.times := by omega
    rw [createLoop_stopCase create n rh h]
    refine ⟨by decide, rfl, by decide⟩
  | succ k ih =>
    intro n rh hfu
    have h : ¬ rh.retries < rh.times := by omega
    rw [createLoop_goCase create n rh h, hf n]
    have hih := ih (n + 1) ⟨rh.retries, rh.times + 1⟩ (by simp; omega)
    refine ⟨?_, hih.2.1, ?_⟩
    · show List.count Event.createAttempt
        (Event.waited :: Event.createAttempt :: Event.errorLogged ::
          (createLoop create (n + 1) ⟨rh.retries, rh.times + 1⟩).1) = k + 1
      simp [List.count_cons, hih.1]
    · show Event.shutdownSet ∈
        Event.waited :: Event.createAttempt :: Event.errorLogged ::
          (createLoop create (n + 1) ⟨rh.retries, rh.times + 1⟩).1
      exact List.mem_cons_of_mem _ (List.mem_cons_of_mem _ (List.mem_cons_of_mem _ hih.2.2))

theorem createLoop_count_le (create : Nat → Option PluginM) :
    ∀ (fuel n : Nat) (rh : RetryHelper), rh.retries + 1 - rh.times ≤ fuel →
      (createLoop create n rh).1.count Event.createAttempt ≤ rh.retries + 1 - rh.times := by
  intro fuel
  induction fuel with
  | zero =>
    intro n rh hfu
    have h : rh.retries < rh.times := by omega
    rw [createLoop_stopCase create n rh h]
    simp
  | succ k ih =>
    intro n rh hfu
    by_cases h : rh.retries < rh.times
    · rw [createLoop_stopCase create n rh h]
      simp
    · rw [createLoop_goCase create n rh h]
      cases hc : create n with
      | none =>
        have hih := ih (n + 1) ⟨rh.retries, rh.times + 1⟩ (by simp; omega)
        show List.count Event.createAttempt
          (Event.waited :: Event.createAttempt :: Event.errorLogged ::
            (createLoop create (n + 1) ⟨rh.retries, rh.times + 1⟩).1) ≤
            rh.retries + 1 - rh.times
        simp only [List.count_cons] at hih ⊢
        simp at hih ⊢
        omega
      | some p =>
        show List.count Event.createAttempt
          [Event.waited, Event.createAttempt, Event.pluginReplaced] ≤
            rh.retries + 1 - rh.times
        have h1 : List.count Event.createAttempt
          [Event.waited, Event.createAttempt, Event.pluginReplaced] = 1 := by decide
        omega

theorem createLoop_wait_pairs (create : Nat → Option PluginM) :
    ∀ (fuel n : Nat) (rh : RetryHelper), rh.retries + 1 - rh.times ≤ fuel →
      (createLoop create n rh).1.count Event.waited =
        (createLoop create n rh).1.count Event.createAttempt := by
  intro fuel
  induction fuel with
  | zero =>
    intro n rh hfu
    have h : rh.retries < rh.times := by omega
    rw [createLoop_stopCase create n rh h]
    decide
  | succ k ih =>
    intro n rh hfu
    by_cases h : rh.retries < rh.times
    · rw [createLoop_stopCase create n rh h]
      decide
    · rw [createLoop_goCase create n rh h]
      cases hc : create n with
      | none =>
        have hih := ih (n + 1) ⟨rh.retries, rh.times + 1⟩ (by simp; omega)
        show List.count Event.waited
            (Event.waited :: Event.createAttempt :: Event.errorLogged ::
              (createLoop create (n + 1) ⟨rh.retries, rh.times + 1⟩).1) =
          List.count Event.createAttempt
            (Event.waited :: Event.createAttempt :: Event.errorLogged ::
              (createLoop create (n + 1) ⟨rh.retries, rh.times + 1⟩).1)
        simp [List.count_cons, hih]
      | some p =>
        show List.count Event.waited
            [Event.waited, Event.createAttempt, Event.pluginReplaced] =
          List.count Event.createAttempt
            [Event.waited, Event.createAttempt, Event.pluginReplaced]
        decide

theorem createLoop_reset (create : Nat → Option PluginM) :
    ∀ (fuel n : Nat) (rh : RetryHelper), rh.retries + 1 - rh.times ≤ fuel →
      ∀ (p : PluginM) (rh' : RetryHelper) (n' : Nat),
        (createLoop create n rh).2 = CreateOutcome.created p rh' n' → rh'.times = 0 := by
  intro fuel
  induction fuel with
  | zero =>
    intro n rh hfu p rh' n' hout
    have h : rh.retries < rh.times := by omega
    rw [createLoop_stopCase create n rh h] at hout
    exact absurd hout (by simp)
  | succ k ih =>
    intro n rh hfu p rh' n' hout
    by_cases h : rh.retries < rh.times
    · rw [createLoop_stopCase create n rh h] at hout
      exact absurd hout (by simp)
    · rw [createLoop_goCase create n rh h] at hout
      cases hc : create n with
      | none =>
        rw [hc] at hout
        exact ih (n + 1) ⟨rh.retries, rh.times + 1⟩ (by simp; omega) p rh' n' hout
      | some q =>
        rw [hc] at hout
        have hout2 : CreateOutcome.created q (rhReset ⟨rh.retries, rh.times + 1⟩) (n + 1) =
            CreateOutcome.created p rh' n' := hout
        have : rh' = rhReset ⟨rh.retries, rh.times + 1⟩ :=
          (CreateOutcome.created.injEq _ _ _ _ _ _).mp hout2 |>.2.1.symm
        rw [this]
        rfl

/-! ## Claim theorems: supervision (C3, C4, C9) -/

/-- C3 (amended): the reinitialization loop shared by `iRunner.Starter`
and `foRunner.Starter` performs at most `MaxRetries + 1` re-creation
attempts from a freshly reset retry counter (`rh.retries + 1 - rh.times`
in general), each attempt preceded by a backoff wait; when the retries
are exhausted the runner logs, sets the global shutdown flag and
terminates, and for both runner kinds the supervisor ends with the
stopping flag raised; a successful re-creation resets the retry
counter. -/
theorem claim_C3 (create : Nat → Option PluginM) (n : Nat) (rh : RetryHelper) :
    ((createLoop create n rh).1.count Event.createAttempt ≤ rh.retries + 1 - rh.times) ∧
    ((createLoop create n rh).1.count Event.waited =
      (createLoop create n rh).1.count Event.createAttempt) ∧
    ((∀ k, create k = none) →
      (createLoop create n rh).2 = CreateOutcome.exhausted ∧
      Event.shutdownSet ∈ (createLoop create n rh).1 ∧
      (createLoop create n rh).1.count Event.createAttempt = rh.retries + 1 - rh.times) ∧
    (∀ (p : PluginM) (rh' : RetryHelper) (n' : Nat),
      (createLoop create n rh).2 = CreateOutcome.created p rh' n' → rh'.times = 0) ∧
    ((∀ k, create k = none) → ∀ (r : RunOutcome) (rest : List RunOutcome) (p : PluginM),
      p.restartable = true → r.stopDuring = false →
      (foStarter true create (r :: rest) n false p rh).2 = true ∧
      (iStarter create (r :: rest) n false p rh).2 = true) := by
  refine ⟨createLoop_count_le create _ n rh le_rfl,
    createLoop_wait_pairs create _ n rh le_rfl,
    fun hf => ?_, createLoop_reset create _ n rh le_rfl, fun hf r rest p hre hsd => ?_⟩
  · have h := createLoop_allFail create hf (rh.retries + 1 - rh.times) n rh rfl
    exact ⟨h.2.1, h.2.2, h.1⟩
  · have h := createLoop_allFail create hf (rh.retries + 1 - rh.times) n rh rfl
    rcases hcl : createLoop create n rh with ⟨cevs, cout⟩
    rw [hcl] at h
    have hco : cout = CreateOutcome.exhausted := h.2.1
    subst hco
    constructor
    · simp [foStarter, hsd, hre, hcl]
    · simp [iStarter, hsd, hre, hcl]

/-- C3 counterexample: with `max_retries = 1` and a wrapper whose
re-creation keeps failing, the reinitialization loop performs two
creation attempts, not at most one, so the loop does not attempt plugin
re-creation "at most MaxRetries times". -/
theorem claim_C3_counterexample :
    ¬ ((createLoop (fun _ => none) 0 ⟨1, 0⟩).1.count Event.createAttempt ≤ 1) := by
  have h := createLoop_allFail (fun _ => none) (fun _ => rfl) 2 0 ⟨1, 0⟩ rfl
  rw [h.1]
  decide

/-- C3 witness: at `max_retries = 2` with all re-creations failing, the
loop makes exactly three attempts, ends exhausted, and raises the
shutdown flag. -/
theorem claim_C3_witness :
    (createLoop (fun _ => none) 0 ⟨2, 0⟩).2 = CreateOutcome.exhausted ∧
    Event.shutdownSet ∈ (createLoop (fun _ => none) 0 ⟨2, 0⟩).1 ∧
    (createLoop (fun _ => none) 0 ⟨2, 0⟩).1.count Event.createAttempt = 2 + 1 - 0 := by
  exact (claim_C3 (fun _ => none) 0 ⟨2, 0⟩).2.2.1 (fun _ => rfl)

/-- C4: for a plugin that does not implement the `Restarting` marker
(with, for filter/output runners, a registered wrapper), the first
`Run` return with a non-nil error leaves the global stopping flag set
and the supervisor loop terminated: exactly one `Run` invocation, no
re-creation attempt, for both runner kinds. -/
theorem claim_C4 (create : Nat → Option PluginM) (r : RunOutcome) (rest : List RunOutcome)
    (n : Nat) (p : PluginM) (rh : RetryHelper)
    (hre : p.restartable = false) (herr : r.isErr = true) :
    (foStarter true create (r :: rest) n false p rh).2 = true ∧
    (foStarter true create (r :: rest) n false p rh).1.count Event.runInvoked = 1 ∧
    (foStarter true create (r :: rest) n false p rh).1.count Event.createAttempt = 0 ∧
    Event.errorLogged ∈ (foStarter true create (r :: rest) n false p rh).1 ∧
    (iStarter create (r :: rest) n false p rh).2 = true ∧
    (iStarter create (r :: rest) n false p rh).1.count Event.runInvoked = 1 ∧
    (iStarter create (r :: rest) n false p rh).1.count Event.createAttempt = 0 ∧
    Event.errorLogged ∈ (iStarter create (r :: rest) n false p rh).1 := by
  cases hsd : r.stopDuring <;>
    simp [foStarter, iStarter, runLogEvent, hre, herr, hsd]

/-- C9: a filter/output runner whose name has no registered wrapper
terminates right after the wrapper lookup when `Run` returns: the trace
is just the run and its log line, with no `CleanupForRestart`, no
re-creation attempt and no shutdown broadcast, whatever the plugin's
restartability and whatever `Run` returned. -/
theorem claim_C9 (create : Nat → Option PluginM) (r : RunOutcome) (rest : List RunOutcome)
    (n : Nat) (p : PluginM) (rh : RetryHelper) (hsd : r.stopDuring = false) :
    foStarter false create (r :: rest) n false p rh =
      ([Event.runInvoked, runLogEvent r], false) := by
  simp [foStarter, hsd]

/-- C9 witness: concrete instance with a restartable plugin and an
erroring run. -/
theorem claim_C9_witness :
    foStarter false (fun _ => none) [⟨true, false⟩] 0 false ⟨true⟩ ⟨3, 0⟩ =
      ([Event.runInvoked, runLogEvent ⟨true, false⟩], false) :=
  claim_C9 (fun _ => none) ⟨true, false⟩ [] 0 ⟨true⟩ ⟨3, 0⟩ rfl

/-- C4 witness: concrete non-restartable plugin with an erroring run. -/
theorem claim_C4_witness :
    (foStarter true (fun _ => none) [⟨true, false⟩] 0 false ⟨false⟩ ⟨3, 0⟩).2 = true ∧
    (foStarter true (fun _ => none) [⟨true, false⟩] 0 false ⟨false⟩ ⟨3, 0⟩).1.count
      Event.runInvoked = 1 ∧
    (foStarter true (fun _ => none) [⟨true, false⟩] 0 false ⟨false⟩ ⟨3, 0⟩).1.count
      Event.createAttempt = 0 ∧
    Event.errorLogged ∈ (foStarter true (fun _ => none) [⟨true, false⟩] 0 false ⟨false⟩ ⟨3, 0⟩).1 ∧
    (iStarter (fun _ => none) [⟨true, false⟩] 0 false ⟨false⟩ ⟨3, 0⟩).2 = true ∧
    (iStarter (fun _ => none) [⟨true, false⟩] 0 false ⟨false⟩ ⟨3, 0⟩).1.count
      Event.runInvoked = 1 ∧
    (iStarter (fun _ => none) [⟨true, false⟩] 0 false ⟨false⟩ ⟨3, 0⟩).1.count
      Event.createAttempt = 0 ∧
    Event.errorLogged ∈ (iStarter (fun _ => none) [⟨true, false⟩] 0 false ⟨false⟩ ⟨3, 0⟩).1 :=
  claim_C4 (fun _ => none) ⟨true, false⟩ [] 0 ⟨false⟩ ⟨3, 0⟩ rfl rfl

/-! ## Claim theorems: Inject and pack retention (C1, C2) -/

/-- C1: a filter's `Inject` on a pack matching the filter's own
message-matcher predicate returns `false`, recycles the pack and logs an
error; on a non-matching pack it returns `true` and hands the pack to
the router. -/
theorem claim_C1 (α : Type) (spec : α → Bool) (p : α) :
    (spec p = true →
      foInject spec p = (false, [FoEvent.recycled p, FoEvent.errorLogged])) ∧
    (spec p = false →
      foInject spec p = (true, [FoEvent.routed p])) := by
  constructor <;> intro h <;> simp [foInject, h]

/-- C1 witness: an even-matcher filter rejects an even pack and routes
an odd one. -/
theorem claim_C1_witness :
    foInject (fun n : Nat => n % 2 == 0) 4 =
      (false, [FoEvent.recycled 4, FoEvent.errorLogged]) ∧
    foInject (fun n : Nat => n % 2 == 0) 3 = (true, [FoEvent.routed 3]) :=
  ⟨(claim_C1 Nat (fun n => n % 2 == 0) 4).1 (by decide),
   (claim_C1 Nat (fun n => n % 2 == 0) 3).2 (by decide)⟩

/-- C2: after `RetainPack p`, the next `InChan` returns a single-shot
channel that yields exactly `p` and is then closed, with the retention
slot cleared; the following `InChan` returns the real queue; and with
nothing retained `InChan` returns the real queue unchanged. -/
theorem claim_C2 (α : Type) (s : FoChanState α) (p : α) :
    foInChan (foRetainPack s p) =
      (ChanRead.retainChan [p] true, { retainPack := none, queue := s.queue }) ∧
    (foInChan (foInChan (foRetainPack s p)).2).1 = ChanRead.realChan s.queue ∧
    (s.retainPack = none → foInChan s = (ChanRead.realChan s.queue, s)) := by
  refine ⟨rfl, rfl, fun h => ?_⟩
  cases s with
  | mk rp q =>
    simp only at h
    subst h
    rfl

/-- C2 witness: a concrete runner state with queue `[5]` and retained
pack `7`. -/
theorem claim_C2_witness :
    foInChan (foRetainPack (⟨none, [5]⟩ : FoChanState Nat) 7) =
      (ChanRead.retainChan [7] true, ⟨none, [5]⟩) ∧
    (foInChan (foInChan (foRetainPack (⟨none, [5]⟩ : FoChanState Nat) 7)).2).1 =
      ChanRead.realChan [5] ∧
    foInChan (⟨none, [5]⟩ : FoChanState Nat) = (ChanRead.realChan [5], ⟨none, [5]⟩) :=
  have h := claim_C2 Nat ⟨none, [5]⟩ 7
  ⟨h.1, h.2.1, h.2.2 rfl⟩

/-! ## Claim theorems: decoder runner (C5) -/

theorem dRunnerStep_countP {α : Type} (res : Option (List α) × Option String) (q : α) :
    (dRunnerStep res q).countP isRecycleEv = if (res.1).isNone then 1 else 0 := by
  rcases res with ⟨op, oe⟩
  cases op with
  | some ps =>
    simp [dRunnerStep, List.countP_map]
    intro a _
    rfl
  | none =>
    cases oe <;> simp [dRunnerStep, List.countP_cons, isRecycleEv]

/-- C5: in the decoder runner's drain loop, a non-nil `Decode` result
forwards every returned pack to the router and does not recycle the
original; a nil result with an error yields one log plus one recycle; a
nil result without error yields exactly one silent recycle.  Across the
whole loop, recycle events correspond exactly to the nil-result packs. -/
theorem claim_C5 (α : Type) [DecidableEq α] :
    (∀ (ps : List α) (e : Option String) (p : α), ps ≠ [] →
      dRunnerStep (some ps, e) p = ps.map DEvent.routed ∧
      (dRunnerStep (some ps, e) p).count (DEvent.recycled p) = 0) ∧
    (∀ (msg : String) (p : α),
      dRunnerStep ((none : Option (List α)), some msg) p =
        [DEvent.logged, DEvent.recycled p]) ∧
    (∀ (p : α),
      dRunnerStep ((none : Option (List α)), (none : Option String)) p =
        [DEvent.recycled p]) ∧
    (∀ (decode : α → Option (List α) × Option String) (inbound : List α),
      (dRunnerLoop decode inbound).countP isRecycleEv =
        inbound.countP (fun q => ((decode q).1).isNone)) := by
  refine ⟨fun ps e p _ => ⟨rfl, ?_⟩, fun msg p => rfl, fun p => rfl, fun decode inbound => ?_⟩
  · refine List.count_eq_zero.mpr ?_
    intro hmem
    simp [dRunnerStep, List.mem_map] at hmem
  · induction inbound with
    | nil => rfl
    | cons q rest ih =>
      simp [dRunnerLoop, List.countP_append, List.countP_cons, ih, dRunnerStep_countP]
      all_goals omega

/-- C5 witness: concrete decode results over `Nat` packs. -/
theorem claim_C5_witness :
    (dRunnerStep (some [10, 11], (none : Option String)) 5 =
      [DEvent.routed 10, DEvent.routed 11] ∧
     (dRunnerStep (some [10, 11], (none : Option String)) 5).count (DEvent.recycled 5) = 0) ∧
    dRunnerStep ((none : Option (List Nat)), some "boom") 5 =
      [DEvent.logged, DEvent.recycled 5] ∧
    dRunnerStep ((none : Option (List Nat)), (none : Option String)) 5 =
      [DEvent.recycled 5] :=
  have h := claim_C5 Nat
  ⟨h.1 [10, 11] none 5 (by decide), h.2.1 "boom" 5, h.2.2.1 5⟩

/-! ## Claim theorems: sandbox Decode (C7) -/

/-- C7: after `ProcessMessage`, a negative return recycles every
accumulated pack except the first, clears the batch and makes `Decode`
return a nil slice with a non-nil error; a positive return raises the
global shutdown flag and logs the error; a zero return hands back the
accumulated packs. -/
theorem claim_C7 (α : Type) (prevErr : Option String) (retval : Int)
    (sPacks : Option (List α)) :
    (retval < 0 →
      (sandboxDecode prevErr retval sPacks).recycled = (sPacks.getD []).tail ∧
      (sandboxDecode prevErr retval sPacks).outPacks = none ∧
      (sandboxDecode prevErr retval sPacks).outErr ≠ none ∧
      (sandboxDecode prevErr retval sPacks).packsAfter = none) ∧
    (0 < retval →
      (sandboxDecode prevErr retval sPacks).shutdownSet = true ∧
      (sandboxDecode prevErr retval sPacks).errLogged = true) ∧
    (retval = 0 →
      (sandboxDecode prevErr retval sPacks).outPacks = sPacks ∧
      (sandboxDecode prevErr retval sPacks).recycled = [] ∧
      (sandboxDecode prevErr retval sPacks).shutdownSet = false ∧
      (sandboxDecode prevErr retval sPacks).packsAfter = none) := by
  refine ⟨fun h => ?_, fun h => ?_, fun h => ?_⟩
  · have hnp : ¬ (0 : Int) < retval := by omega
    rcases sPacks with _ | ⟨_ | ⟨x, rest⟩⟩ <;>
      simp [sandboxDecode, h, hnp]
  · have hnn : ¬ retval < 0 := by omega
    simp [sandboxDecode, h, hnn]
  · subst h
    simp [sandboxDecode]

/-- C7 witness: a failing `ProcessMessage` over a three-pack batch, a
fatal return, and a clean return. -/
theorem claim_C7_witness :
    ((sandboxDecode (none : Option String) (-1) (some [1, 2, 3])).recycled = [2, 3] ∧
     (sandboxDecode (none : Option String) (-1) (some [1, 2, 3])).outPacks = none ∧
     (sandboxDecode (none : Option String) (-1) (some [1, 2, 3])).outErr ≠ none ∧
     (sandboxDecode (none : Option String) (-1) (some [1, 2, 3])).packsAfter = none) ∧
    ((sandboxDecode (none : Option String) 2 (some [(1 : Nat)])).shutdownSet = true ∧
     (sandboxDecode (none : Option String) 2 (some [(1 : Nat)])).errLogged = true) ∧
    ((sandboxDecode (none : Option String) 0 (some [(1 : Nat), 2])).outPacks = some [1, 2] ∧
     (sandboxDecode (none : Option String) 0 (some [(1 : Nat), 2])).recycled = [] ∧
     (sandboxDecode (none : Option String) 0 (some [(1 : Nat), 2])).shutdownSet = false ∧
     (sandboxDecode (none : Option String) 0 (some [(1 : Nat), 2])).packsAfter = none) :=
  ⟨by
    have h := (claim_C7 Nat none (-1) (some [1, 2, 3])).1 (by decide)
    simpa using h,
   (claim_C7 Nat none 2 (some [1])).2.1 (by decide),
   (claim_C7 Nat none 0 (some [1, 2])).2.2 rfl⟩

/-! ## Claim theorems: output pack discipline (C8) and FileOutput json errors (C10) -/

theorem smtpRunStep_count {α : Type} [DecidableEq α] (payloadOnly : Bool)
    (marshalRes : Except String String) (sendErr : Option String) (q p : α) :
    (smtpRunStep payloadOnly marshalRes sendErr q).count (OutEvent.recycled p) =
      if p = q then 1 else 0 := by
  by_cases hpq : p = q
  · subst hpq
    cases payloadOnly <;> cases marshalRes <;> cases sendErr <;>
      simp [smtpRunStep, List.count_cons, List.count_append]
  · have hqp : q ≠ p := Ne.symm hpq
    cases payloadOnly <;> cases marshalRes <;> cases sendErr <;>
      simp [smtpRunStep, List.count_cons, List.count_append, hpq, hqp]

theorem fileReceiverStep_count {α : Type} [DecidableEq α] (res : HandleResult) (q p : α) :
    (fileReceiverStep res q).count (OutEvent.recycled p) = if p = q then 1 else 0 := by
  rcases res with ⟨o, e⟩
  by_cases hpq : p = q
  · subst hpq
    cases e <;> simp [fileReceiverStep, List.count_cons, List.count_append]
  · have hqp : q ≠ p := Ne.symm hpq
    cases e <;> simp [fileReceiverStep, List.count_cons, List.count_append, hpq, hqp]

/-- C8: each pack taken by `SmtpOutput.Run` or by `FileOutput`'s
receiver loop is recycled exactly once on every control path, and over a
whole run every pack is recycled once per time it was taken: no leak, no
double recycle. -/
theorem claim_C8 (α : Type) [DecidableEq α] :
    (∀ (payloadOnly : Bool) (marshalRes : Except String String)
      (sendErr : Option String) (p : α),
      (smtpRunStep payloadOnly marshalRes sendErr p).count (OutEvent.recycled p) = 1) ∧
    (∀ (res : HandleResult) (p : α),
      (fileReceiverStep res p).count (OutEvent.recycled p) = 1) ∧
    (∀ (payloadOnly : Bool) (oracle : α → Except String String × Option String)
      (packs : List α) (p : α),
      (smtpRun payloadOnly oracle packs).count (OutEvent.recycled p) = packs.count p) ∧
    (∀ (handle : α → HandleResult) (packs : List α) (p : α),
      (fileReceiverLoop handle packs).count (OutEvent.recycled p) = packs.count p) := by
  refine ⟨fun payloadOnly marshalRes sendErr p => ?_, fun res p => ?_,
    fun payloadOnly oracle packs p => ?_, fun handle packs p => ?_⟩
  · simp [smtpRunStep_count]
  · simp [fileReceiverStep_count]
  · induction packs with
    | nil => rfl
    | cons q rest ih =>
      by_cases hpq : p = q
      · subst hpq
        simp [smtpRun, List.count_append, List.count_cons, ih, smtpRunStep_count]
        omega
      · have hqp : q ≠ p := Ne.symm hpq
        simp [smtpRun, List.count_append, List.count_cons, ih, smtpRunStep_count, hpq, hqp]
  · induction packs with
    | nil => rfl
    | cons q rest ih =>
      by_cases hpq : p = q
      · subst hpq
        simp [fileReceiverLoop, List.count_append, List.count_cons, ih, fileReceiverStep_count]
        omega
      · have hqp : q ≠ p := Ne.symm hpq
        simp [fileReceiverLoop, List.count_append, List.count_cons, ih,
          fileReceiverStep_count, hpq, hqp]

/-- C10: with format `json`, `handleMessage` always returns a nil
error: on a marshal failure the wrapped error lands in the shadowing
variable, only the optional timestamp `ts` is in the output chunks, and
the receiver loop never logs (it just recycles the pack). -/
theorem claim_C10 (withTs : Bool) (ts : String) (jsonRes : Except String String)
    (payload : String) (protoRes : Except String String) :
    (handleMessage withTs FileFormat.json ts jsonRes payload protoRes).err = none ∧
    (∀ e, jsonRes = Except.error e →
      (handleMessage withTs FileFormat.json ts jsonRes payload protoRes).out =
        if withTs then [ts] else []) ∧
    (∀ (α : Type) (p : α),
      fileReceiverStep (handleMessage withTs FileFormat.json ts jsonRes payload protoRes) p =
        [OutEvent.recycled p]) := by
  have herr : (handleMessage withTs FileFormat.json ts jsonRes payload protoRes).err = none := by
    cases jsonRes <;> cases withTs <;> simp [handleMessage]
  refine ⟨herr, fun e he => ?_, fun α p => ?_⟩
  · subst he
    cases withTs <;> simp [handleMessage]
  · simp [fileReceiverStep, herr]

/-- C10 witness: a failing marshal with the timestamp option on. -/
theorem claim_C10_witness :
    (handleMessage true FileFormat.json "[ts] " (Except.error "cycle") "pay"
      (Except.ok "pb")).err = none ∧
    (handleMessage true FileFormat.json "[ts] " (Except.error "cycle") "pay"
      (Except.ok "pb")).out = (if true then ["[ts] "] else []) ∧
    fileReceiverStep (handleMessage true FileFormat.json "[ts] " (Except.error "cycle") "pay"
      (Except.ok "pb")) (3 : Nat) = [OutEvent.recycled 3] :=
  have h := claim_C10 true "[ts] " (Except.error "cycle") "pay" (Except.ok "pb")
  ⟨h.1, h.2.1 "cycle" rfl, h.2.2 Nat 3⟩

/-! ## Helper lemmas: sandbox inject callback (C6) -/

theorem fillFrom_set (m : Message) (o : Header → Option Nat) (h : Header) (w : Nat)
    (hm : m.hdr h = some w) : (fillFrom m o).hdr h = some w := by
  simp [fillFrom, hm]

theorem fillFrom_unset (m : Message) (o : Header → Option Nat) (h : Header) (v : Nat)
    (hm : m.hdr h = none) (ho : o h = some v) : (fillFrom m o).hdr h = some v := by
  cases h <;> simp [fillFrom, hm, ho]

theorem getD_map_of_lt {α β : Type} (f : α → β) :
    ∀ (l : List α) (k : Nat), k < l.length → ∀ (d : α) (d' : β),
      (l.map f).getD k d' = f (l.getD k d) := by
  intro l
  induction l with
  | nil => intro k hk _ _; simp at hk
  | cons a as ih =>
    intro k hk d d'
    cases k with
    | zero => rfl
    | succ k2 =>
      simp only [List.map_cons, List.getD_cons_succ]
      exact ih k2 (by simpa using hk) d d'

theorem getD_mem_of_lt {α : Type} : ∀ (l : List α) (k : Nat), k < l.length → ∀ (d : α),
    l.getD k d ∈ l := by
  intro l
  induction l with
  | nil => intro k hk _; simp at hk
  | cons a as ih =>
    intro k hk d
    cases k with
    | zero => simp [List.getD_cons_zero]
    | succ k2 =>
      simp only [List.getD_cons_succ]
      exact List.mem_cons_of_mem a (ih k2 (by simpa using hk) d)

theorem injectCb_first (m0 : Message) (o₀ : Option Message) (inj : Inj)
    (hok : injOk inj = true) :
    (injectCb (decodeStart m0 o₀) inj).2.packs = [injOutFirst m0 inj] ∧
    InvD m0 (injectCb (decodeStart m0 o₀) inj).2 := by
  cases inj with
  | binary d =>
    cases d with
    | none => simp [injOk] at hok
    | some dm =>
      refine ⟨rfl, rfl, Or.inl ⟨{ hdr := m0.hdr, payload := none, fields := [] }, rfl, rfl⟩⟩
  | payloadInj p pt pn =>
    refine ⟨rfl, rfl, Or.inr ⟨rfl, addPayloadFields m0 p pt pn, rfl, rfl⟩⟩

theorem injectCb_inv_step (m0 : Message) (s : DecState) (inj : Inj)
    (hInv : InvD m0 s) (hok : injOk inj = true) :
    (injectCb s inj).2.packs = s.packs ++ [injOutLater m0 inj] ∧
    InvD m0 (injectCb s inj).2 := by
  obtain ⟨hpack, hsrc⟩ := hInv
  rcases s with ⟨sp, so, spk⟩
  simp only at hpack
  subst hpack
  rcases hsrc with ⟨o, ho, hohdr⟩ | ⟨hoo, q, hq, hqhdr⟩
  · simp only at ho
    subst ho
    cases inj with
    | binary d =>
      cases d with
      | none => simp [injOk] at hok
      | some dm =>
        refine ⟨?_, rfl, Or.inl ⟨o, rfl, hohdr⟩⟩
        show spk ++ [fillFrom dm o.hdr] = spk ++ [injOutLater m0 (Inj.binary (some dm))]
        rw [hohdr]
        rfl
    | payloadInj p pt pn =>
      refine ⟨?_, rfl, Or.inl ⟨o, rfl, hohdr⟩⟩
      show spk ++ [fillFrom (addPayloadFields emptyMessage p pt pn) o.hdr] =
        spk ++ [injOutLater m0 (Inj.payloadInj p pt pn)]
      rw [hohdr]
      rfl
  · simp only at hoo hq
    subst hoo
    cases spk with
    | nil => simp at hq
    | cons q0 t =>
      simp only [List.head?_cons, Option.some.injEq] at hq
      subst hq
      cases inj with
      | binary d =>
        cases d with
        | none => simp [injOk] at hok
        | some dm =>
          refine ⟨?_, rfl, Or.inl ⟨q0, rfl, hqhdr⟩⟩
          show (q0 :: t) ++ [fillFrom dm q0.hdr] =
            (q0 :: t) ++ [injOutLater m0 (Inj.binary (some dm))]
          rw [hqhdr]
          rfl
      | payloadInj p pt pn =>
        refine ⟨?_, rfl, Or.inl ⟨q0, rfl, hqhdr⟩⟩
        show (q0 :: t) ++ [fillFrom (addPayloadFields emptyMessage p pt pn) q0.hdr] =
          (q0 :: t) ++ [injOutLater m0 (Inj.payloadInj p pt pn)]
        rw [hqhdr]
        rfl

theorem runInjections_inv (m0 : Message) :
    ∀ (l : List Inj) (s : DecState), InvD m0 s → (∀ j ∈ l, injOk j = true) →
      (runInjections s l).packs = s.packs ++ l.map (injOutLater m0) := by
  intro l
  induction l with
  | nil =>
    intro s _ _
    simp [runInjections]
  | cons i is ih =>
    intro s hInv hok
    have hstep := injectCb_inv_step m0 s i hInv (hok i (List.mem_cons_self i is))
    show (runInjections (injectCb s i).2 is).packs = _
    rw [ih (injectCb s i).2 hstep.2 (fun j hj => hok j (List.mem_cons_of_mem i hj)), hstep.1]
    simp

theorem runInjections_packs (m0 : Message) (o₀ : Option Message) (i0 : Inj) (is : List Inj)
    (hok : ∀ j ∈ i0 :: is, injOk j = true) :
    (runInjections (decodeStart m0 o₀) (i0 :: is)).packs =
      injOutFirst m0 i0 :: is.map (injOutLater m0) := by
  have hfirst := injectCb_first m0 o₀ i0 (hok i0 (List.mem_cons_self i0 is))
  show (runInjections (injectCb (decodeStart m0 o₀) i0).2 is).packs = _
  rw [runInjections_inv m0 is _ hfirst.2 (fun j hj => hok j (List.mem_cons_of_mem i0 hj)),
    hfirst.1]
  simp

/-- C6: in the sandbox adapter's inject callback, for every injection
after the first, and for the first injection on the binary-decode path
(where the unmarshal wipes the headers), every standard header the
script left unset on the outgoing message is set to the input message's
corresponding header value captured before `ProcessMessage`, while
headers the script did set are left untouched. -/
theorem claim_C6 (m0 : Message) (o₀ : Option Message) (l : List Inj)
    (hok : ∀ j ∈ l, injOk j = true) (i : Nat) (hi : i < l.length) (h : Header)
    (hafter : 1 ≤ i ∨ isBinaryInj (l.getD i defInj) = true) :
    (∀ w, scriptHdr m0 (decide (i = 0)) (l.getD i defInj) h = some w →
      (((runInjections (decodeStart m0 o₀) l).packs).getD i emptyMessage).hdr h = some w) ∧
    (scriptHdr m0 (decide (i = 0)) (l.getD i defInj) h = none →
      ∀ v, m0.hdr h = some v →
      (((runInjections (decodeStart m0 o₀) l).packs).getD i emptyMessage).hdr h = some v) := by
  cases l with
  | nil => simp at hi
  | cons i0 is =>
    rw [runInjections_packs m0 o₀ i0 is hok]
    cases i with
    | zero =>
      have hbin : isBinaryInj i0 = true := by
        rcases hafter with h1 | h1
        · omega
        · simpa using h1
      cases i0 with
      | payloadInj p pt pn => simp [isBinaryInj] at hbin
      | binary d =>
        cases d with
        | none =>
          have hk := hok _ (List.mem_cons_self _ _)
          simp [injOk] at hk
        | some dm =>
          constructor
          · intro w hw
            simp only [List.getD_cons_zero, scriptHdr] at hw
            show (fillFrom dm m0.hdr).hdr h = some w
            exact fillFrom_set dm m0.hdr h w hw
          · intro hnone v hv
            simp only [List.getD_cons_zero, scriptHdr] at hnone
            show (fillFrom dm m0.hdr).hdr h = some v
            exact fillFrom_unset dm m0.hdr h v hnone hv
    | succ k =>
      have hk : k < is.length := by simpa using hi
      have hmem : is.getD k defInj ∈ is := getD_mem_of_lt is k hk defInj
      have hoki : injOk (is.getD k defInj) = true := hok _ (List.mem_cons_of_mem i0 hmem)
      have hgp : (injOutFirst m0 i0 :: is.map (injOutLater m0)).getD (k + 1) emptyMessage =
          injOutLater m0 (is.getD k defInj) := by
        simp only [List.getD_cons_succ]
        exact getD_map_of_lt (injOutLater m0) is k hk defInj emptyMessage
      have hgl : (i0 :: is).getD (k + 1) defInj = is.getD k defInj := by
        simp only [List.getD_cons_succ]
      rw [hgp, hgl]
      have hdec : decide (k + 1 = 0) = false := by simp
      rw [hdec]
      rcases hI : is.getD k defInj with d | ⟨p, pt, pn⟩
      · cases d with
        | none =>
          rw [hI] at hoki
          simp [injOk] at hoki
        | some dm =>
          constructor
          · intro w hw
            simp only [scriptHdr] at hw
            show (fillFrom dm m0.hdr).hdr h = some w
            exact fillFrom_set dm m0.hdr h w hw
          · intro hnone v hv
            simp only [scriptHdr] at hnone
            show (fillFrom dm m0.hdr).hdr h = some v
            exact fillFrom_unset dm m0.hdr h v hnone hv
      · constructor
        · intro w hw
          simp [scriptHdr] at hw
        · intro _ v hv
          show (fillFrom (addPayloadFields emptyMessage p pt pn) m0.hdr).hdr h = some v
          exact fillFrom_unset (addPayloadFields emptyMessage p pt pn) m0.hdr h v rfl hv

/-- C6 witness: a script that injects two payload messages; the second
outgoing pack carries the input message's timestamp header. -/
theorem claim_C6_witness :
    (((runInjections (decodeStart
        { hdr := fun _ => some 7, payload := some "in", fields := [] } none)
        [Inj.payloadInj "a" "t" "n", Inj.payloadInj "b" "t" "n"]).packs).getD 1
        emptyMessage).hdr Header.timestamp = some 7 := by
  refine (claim_C6 { hdr := fun _ => some 7, payload := some "in", fields := [] } none
      [Inj.payloadInj "a" "t" "n", Inj.payloadInj "b" "t" "n"] ?_ 1 (by decide)
      Header.timestamp (Or.inl (by decide))).2 rfl 7 rfl
  intro j hj
  rcases List.mem_cons.mp hj with rfl | hj2
  · rfl
  · rcases List.mem_cons.mp hj2 with rfl | hj3
    · rfl
    · simp at hj3

end Heka
